import Mathlib

/-!
Verification of the Democrit trade-negotiation engine against its
natural-language specification.

This file shallowly embeds the relevant C++ source of the repository
(src/checker.cpp, src/trades.cpp, src/authenticator.cpp, src/myorders.cpp,
src/orderbook.cpp) into Lean and proves (or refutes) the specification's
claims about it.

Modelling conventions:
  * `Amount` (C++ `int64_t`) is modelled as `Int`; wherever the C++ code can
    overflow, the wraparound to 64 bits is made explicit through `wrap64`.
    Where theorems need int64 range assumptions, they carry them as explicit
    hypotheses.
  * A glog `CHECK` failure aborts the process; functions whose checks are
    reachable return `CResult α`, where `CResult.crash` is the abort.
  * JSON values decoded from the wallet RPC (`decodepsbt` results) are
    modelled structurally: objects become structures, optional members become
    `Option` fields.  Protobuf messages with `has_foo` presence bits likewise
    become structures with `Option` fields.  The protobuf schema files are not
    part of the sources at hand; field types follow the specification's data
    model (accounts and addresses are strings, amounts are signed 64-bit).
-/

namespace Democrit

/-- Result of running a piece of code that contains reachable glog `CHECK`
assertions: either the computed value, or a process abort. -/
inductive CResult (α : Type) where
  | crash : CResult α
  | ok : α → CResult α
deriving DecidableEq, Repr

/-- Wraparound of an unbounded integer into the signed 64-bit range
`[-2^63, 2^63)`, the practical behaviour of `int64_t` multiplication in
`TradeChecker::GetTotalSat`. -/
def wrap64 (x : Int) : Int :=
  (x + 2 ^ 63) % 2 ^ 64 - 2 ^ 63

/-- `TradeChecker::GetTotalSat` (src/checker.cpp:95-107): computes
`total = price * units` in `int64_t` arithmetic, asserts `units > 0`
(`CHECK_GT`), and reports failure (`.ok none`) when dividing the product back
by `units` does not recover `price`. -/
def TradeChecker.GetTotalSat (price units : Int) : CResult (Option Int) :=
  if units ≤ 0 then
    .crash
  else if (wrap64 (price * units)).tdiv units ≠ price then
    .ok none
  else
    .ok (some (wrap64 (price * units)))

theorem wrap64_lb (x : Int) : -2 ^ 63 ≤ wrap64 x := by
  have h := Int.emod_nonneg (x + 2 ^ 63) (by norm_num : (2 : Int) ^ 64 ≠ 0)
  unfold wrap64
  omega

theorem wrap64_ub (x : Int) : wrap64 x < 2 ^ 63 := by
  have h := Int.emod_lt_of_pos (x + 2 ^ 63) (by norm_num : (0 : Int) < 2 ^ 64)
  unfold wrap64
  omega

theorem wrap64_dvd (x : Int) : (2 ^ 64 : Int) ∣ (x - wrap64 x) := by
  have h := Int.emod_add_ediv (x + 2 ^ 63) (2 ^ 64)
  refine ⟨(x + 2 ^ 63) / 2 ^ 64, ?_⟩
  unfold wrap64
  omega

theorem wrap64_of_range (x : Int) (h1 : -2 ^ 63 ≤ x) (h2 : x < 2 ^ 63) :
    wrap64 x = x := by
  have hd := wrap64_dvd x
  have hl := wrap64_lb x
  have hu := wrap64_ub x
  rcases hd with ⟨k, hk⟩
  have : k = 0 := by nlinarith [hl, hu, h1, h2]
  omega

/-- When the int64 product does not overflow, `GetTotalSat` succeeds and
returns the mathematical product. -/
theorem GetTotalSat_ok_of_lt (price units : Int) (hp : 0 ≤ price)
    (hu : 0 < units) (hlt : price * units < 2 ^ 63) :
    TradeChecker.GetTotalSat price units = .ok (some (price * units)) := by
  have hx0 : 0 ≤ price * units := mul_nonneg hp hu.le
  have hw : wrap64 (price * units) = price * units :=
    wrap64_of_range _ (by omega) hlt
  have htd : (price * units).tdiv units = price :=
    Int.mul_tdiv_cancel price (by omega)
  simp [TradeChecker.GetTotalSat, not_le.mpr hu, hw, htd]

/-- When the int64 product overflows, the dividing-back test in
`GetTotalSat` detects it and the function reports failure. -/
theorem GetTotalSat_none_of_ge (price units : Int) (hp : 0 ≤ price)
    (hu : 0 < units) (hu64 : units < 2 ^ 63) (hge : 2 ^ 63 ≤ price * units) :
    TradeChecker.GetTotalSat price units = .ok none := by
  set x := price * units with hx
  set w := wrap64 x with hwdef
  have hwl : -2 ^ 63 ≤ w := wrap64_lb x
  have hwu : w < 2 ^ 63 := wrap64_ub x
  have hdvd : (2 ^ 64 : Int) ∣ (x - w) := wrap64_dvd x
  have hne : w.tdiv units ≠ price := by
    intro heq
    rcases hdvd with ⟨k, hk⟩
    have hkpos : 1 ≤ k := by nlinarith
    rcases le_or_lt 0 w with hw0 | hw0
    · have he : w.tdiv units = w / units := Int.tdiv_eq_ediv hw0 hu.le
      have : price ≤ w / units := le_of_eq (by rw [← he, heq])
      have : price * units ≤ w := (Int.le_ediv_iff_mul_le hu).mp this
      nlinarith
    · have hnn : 0 ≤ (-w).tdiv units := Int.tdiv_nonneg (by omega) hu.le
      rw [Int.neg_tdiv, heq] at hnn
      have hp0 : price = 0 := by omega
      rw [hp0] at hx
      simp at hx
      omega
  simp [TradeChecker.GetTotalSat, not_le.mpr hu, hne]

/-- C9 (amended): for `units > 0` (and int64-ranged inputs with
`price ≥ 0`), `TradeChecker::GetTotalSat` succeeds with
`total = price * units` exactly when the signed 64-bit product does not
overflow, and reports failure on overflow; `price = 0` implies `total = 0`.
The case `units = 0` of the original claim is excluded: it trips the
function's `CHECK_GT (units, 0)` assertion instead of succeeding. -/
theorem GetTotalSat_spec (price units : Int) (hp : 0 ≤ price)
    (hp64 : price < 2 ^ 63) (hu : 0 < units) (hu64 : units < 2 ^ 63) :
    (TradeChecker.GetTotalSat price units = .ok (some (price * units)) ↔
        price * units < 2 ^ 63) ∧
    (2 ^ 63 ≤ price * units → TradeChecker.GetTotalSat price units = .ok none) ∧
    (price = 0 → TradeChecker.GetTotalSat price units = .ok (some 0)) := by
  refine ⟨⟨fun h => ?_, fun h => GetTotalSat_ok_of_lt price units hp hu h⟩,
          fun h => GetTotalSat_none_of_ge price units hp hu hu64 h, fun h => ?_⟩
  · by_contra hge
    rw [GetTotalSat_none_of_ge price units hp hu hu64 (by omega)] at h
    exact CResult.noConfusion (h) (fun he => Option.noConfusion he)
  · subst h
    have := GetTotalSat_ok_of_lt 0 units le_rfl hu (by norm_num)
    simpa using this

/-- Witness for C9: at `price = 3`, `units = 5` all hypotheses hold and the
amended specification evaluates as stated. -/
theorem GetTotalSat_spec_witness :
    TradeChecker.GetTotalSat 3 5 = .ok (some 15) :=
  (GetTotalSat_spec 3 5 (by norm_num) (by norm_num) (by norm_num)
    (by norm_num)).1.mpr (by norm_num)

/-- Counterexample to C9 as stated: at `price = 5`, `units = 0` the product
`5 * 0 = 0` does not overflow, so the claim requires success with total `0`;
the code instead trips `CHECK_GT (units, 0)` and aborts. -/
theorem GetTotalSat_claim_cex :
    TradeChecker.GetTotalSat 5 0 = CResult.crash ∧
    TradeChecker.GetTotalSat 5 0 ≠ CResult.ok (some ((5 : Int) * 0)) := by
  constructor
  · rfl
  · intro h
    exact CResult.noConfusion (h)

/-! ### Decoded transactions and the seller output check (checker.cpp) -/

/-- A transaction outpoint (`proto::OutPoint`), with both protobuf fields
present (`CheckForSellerSignature` asserts their presence via `CHECK`). -/
structure OutPoint where
  hash : String
  n : Nat
deriving DecidableEq, Repr

/-- The `nameOp` member of a decoded `scriptPubKey`, when present.  The code
asserts (`CHECK`) that `name_encoding` and `value_encoding` are `"utf8"` and
that the `name` and `value` members exist; the model represents exactly the
decodings that pass those assertions. -/
structure NameOp where
  op : String
  name : String
  value : String
deriving DecidableEq, Repr

/-- A decoded `scriptPubKey` JSON object: the optional `address` string,
the optional `addresses` string array, and the optional `nameOp` object
(JSON members of other types behave like absent ones for the code paths
modelled here). -/
structure ScriptPubKey where
  address : Option String
  addresses : Option (List String)
  nameOp : Option NameOp
deriving DecidableEq, Repr

/-- One decoded transaction output: its value (already converted from the
JSON `value` member to satoshis, as `xaya::ChiAmountFromJson` does) and its
`scriptPubKey`. -/
structure TxOut where
  value : Int
  scriptPubKey : ScriptPubKey
deriving DecidableEq, Repr

/-- `proto::SellerData` with its three optional fields. -/
structure SellerData where
  nameAddress : Option String
  chiAddress : Option String
  nameOutput : Option OutPoint
deriving DecidableEq, Repr

/-- `MatchesAddress` (src/checker.cpp:281-297): the `scriptPubKey` matches an
address when its `addresses` array has exactly one entry equal to it, or its
`address` member equals it. -/
def MatchesAddress (spk : ScriptPubKey) (addr : String) : Bool :=
  (match spk.addresses with
   | some [a] => a = addr
   | _ => false)
  || (match spk.address with
      | some a => a = addr
      | _ => false)

/-- One iteration of the output loop of `CheckForSellerOutputs`
(src/checker.cpp:333-379), updating the pair `(foundChi, foundName)`. -/
def sellerOutputStep (seller updateValue nameAddr chiAddr : String)
    (expectedTotal : Int) (acc : Bool × Bool) (out : TxOut) : Bool × Bool :=
  match out.scriptPubKey.nameOp with
  | some nop =>
      if nop.op ≠ "name_update" then acc
      else if nop.name ≠ "p/" ++ seller then acc
      else if nop.value ≠ updateValue then acc
      else if ¬ MatchesAddress out.scriptPubKey nameAddr then acc
      else (acc.1, true)
  | none =>
      if ¬ MatchesAddress out.scriptPubKey chiAddr then acc
      else if out.value < expectedTotal then acc
      else (true, acc.2)

/-- `TradeChecker::CheckForSellerOutputs` (src/checker.cpp:301-394).  The
checker's seller account, canonical move string (`GetNameUpdateValue`),
price and units are parameters; `vout` is the decoded transaction's output
array.  Crashes model the entry assertion on the seller-data addresses, the
assertion inside `GetTotalSat`, and `CHECK_GE (expectedTotal, 0)`. -/
def TradeChecker.CheckForSellerOutputs (seller updateValue : String)
    (price units : Int) (vout : List TxOut) (sd : SellerData) :
    CResult Bool :=
  match sd.chiAddress, sd.nameAddress with
  | some chiAddr, some nameAddr =>
      match TradeChecker.GetTotalSat price units with
      | .crash => .crash
      | .ok none => .ok false
      | .ok (some expectedTotal) =>
          if expectedTotal < 0 then .crash
          else
            let init : Bool × Bool := (expectedTotal = 0, false)
            let res := vout.foldl
              (sellerOutputStep seller updateValue nameAddr chiAddr
                expectedTotal) init
            .ok (res.1 && res.2)
  | _, _ => .crash

/-- The predicate on one output of being the expected name update: a
`name_update` on the seller's name whose value is byte-identical to the
canonical move string, paid to the seller's name address. -/
def isExpectedNameOutput (seller updateValue nameAddr : String)
    (out : TxOut) : Bool :=
  match out.scriptPubKey.nameOp with
  | some nop =>
      nop.op = "name_update" && nop.name = "p/" ++ seller
        && nop.value = updateValue
        && MatchesAddress out.scriptPubKey nameAddr
  | none => false

/-- The predicate on one output of being an acceptable coin payment: not a
name operation, paid to the seller's CHI address, with value at least the
expected total. -/
def isChiPayment (chiAddr : String) (expectedTotal : Int) (out : TxOut) :
    Bool :=
  out.scriptPubKey.nameOp = none
    && MatchesAddress out.scriptPubKey chiAddr
    && expectedTotal ≤ out.value

theorem sellerOutput_foldl_spec (seller updateValue nameAddr chiAddr : String)
    (expectedTotal : Int) (vout : List TxOut) (acc : Bool × Bool) :
    vout.foldl
        (sellerOutputStep seller updateValue nameAddr chiAddr expectedTotal)
        acc =
      (acc.1 || vout.any (isChiPayment chiAddr expectedTotal),
       acc.2 || vout.any (isExpectedNameOutput seller updateValue nameAddr)) := by
  induction vout generalizing acc with
  | nil => simp
  | cons o rest ih =>
      rw [List.foldl_cons, ih]
      simp only [List.any_cons]
      rcases acc with ⟨c, n⟩
      unfold sellerOutputStep isChiPayment isExpectedNameOutput
      rcases hop : o.scriptPubKey.nameOp with _ | nop
      · simp only [hop]
        by_cases h1 : MatchesAddress o.scriptPubKey chiAddr
        · by_cases h2 : o.value < expectedTotal
          · simp [h1, h2, not_le.mpr h2]
          · simp [h1, h2, not_lt.mp h2]
        · simp [h1]
      · simp only [hop]
        by_cases h1 : nop.op = "name_update"
        · by_cases h2 : nop.name = "p/" ++ seller
          · by_cases h3 : nop.value = updateValue
            · by_cases h4 : MatchesAddress o.scriptPubKey nameAddr
              · simp [h1, h2, h3, h4]
              · simp [h1, h2, h3, h4]
            · simp [h1, h2, h3]
          · simp [h1, h2]
        · simp [h1]

/-- C1 (amended): with both seller-data addresses set and int64-ranged
`price ≥ 0`, `units > 0`, `CheckForSellerOutputs` succeeds iff (a) the total
`price * units` is computable without signed overflow, (b) when the total is
positive, some output that is not a name operation pays at least the total to
the CHI address (name-operation outputs never count, and a zero total needs
no such output), and (c) **at least one** output is a `name_update` on the
seller's name with value byte-identical to the canonical move string, paid to
the name address; on overflow the check fails regardless of the outputs. -/
theorem CheckForSellerOutputs_spec (seller updateValue : String)
    (price units : Int) (vout : List TxOut) (sd : SellerData)
    (chiAddr nameAddr : String)
    (hchi : sd.chiAddress = some chiAddr)
    (hname : sd.nameAddress = some nameAddr)
    (hp : 0 ≤ price) (hp64 : price < 2 ^ 63)
    (hu : 0 < units) (hu64 : units < 2 ^ 63) :
    (TradeChecker.CheckForSellerOutputs seller updateValue price units vout sd
        = .ok true ↔
      price * units < 2 ^ 63 ∧
      (0 < price * units →
        vout.any (isChiPayment chiAddr (price * units)) = true) ∧
      vout.any (isExpectedNameOutput seller updateValue nameAddr) = true) ∧
    (2 ^ 63 ≤ price * units →
      TradeChecker.CheckForSellerOutputs seller updateValue price units vout sd
        = .ok false) := by
  have hx0 : 0 ≤ price * units := mul_nonneg hp hu.le
  rcases le_or_lt (2 ^ 63) (price * units) with hge | hlt
  · have hts := GetTotalSat_none_of_ge price units hp hu hu64 hge
    constructor
    · rw [show TradeChecker.CheckForSellerOutputs seller updateValue price
            units vout sd = .ok false by
          simp [TradeChecker.CheckForSellerOutputs, hchi, hname, hts]]
      constructor
      · intro h
        exact absurd (CResult.ok.inj h) (by decide)
      · intro h
        omega
    · intro _
      simp [TradeChecker.CheckForSellerOutputs, hchi, hname, hts]
  · have hts := GetTotalSat_ok_of_lt price units hp hu hlt
    have hres : TradeChecker.CheckForSellerOutputs seller updateValue price
        units vout sd =
        .ok ((decide (price * units = 0)
                || vout.any (isChiPayment chiAddr (price * units)))
             && vout.any (isExpectedNameOutput seller updateValue nameAddr))
        := by
      simp only [TradeChecker.CheckForSellerOutputs, hchi, hname, hts,
        not_lt.mpr hx0, if_neg (not_lt.mpr hx0)]
      rw [sellerOutput_foldl_spec]
      simp
    rw [hres]
    constructor
    · constructor
      · intro h
        have hb := CResult.ok.inj h
        simp only [Bool.and_eq_true, Bool.or_eq_true, decide_eq_true_eq]
          at hb
        refine ⟨hlt, fun hpos => ?_, hb.2⟩
        rcases hb.1 with h0 | hc
        · omega
        · exact hc
      · rintro ⟨-, hchi', hname'⟩
        have : (decide (price * units = 0)
            || vout.any (isChiPayment chiAddr (price * units))) = true := by
          rcases eq_or_lt_of_le hx0 with h0 | hpos
          · simp [← h0]
          · simp [hchi' hpos]
        rw [this, hname']
        rfl
    · intro h
      omega

/-- Witness for C1: a concrete PSBT with one coin output paying the total to
the CHI address and one matching name-update output passes the check. -/
theorem CheckForSellerOutputs_spec_witness :
    TradeChecker.CheckForSellerOutputs "seller" "mv" 2 3
      [⟨6, ⟨some "chi addr", none, none⟩⟩,
       ⟨1000000, ⟨some "name addr", none,
          some ⟨"name_update", "p/seller", "mv"⟩⟩⟩]
      ⟨some "name addr", some "chi addr", none⟩ = .ok true :=
  (CheckForSellerOutputs_spec "seller" "mv" 2 3 _ _ "chi addr" "name addr"
    rfl rfl (by norm_num) (by norm_num) (by norm_num) (by norm_num)).1.mpr
    (by refine ⟨by norm_num, fun _ => ?_, by decide⟩; decide)

/-- Counterexample to C1 as stated: the check only requires **at least one**
matching name-update output, not exactly one.  With a zero total and two
byte-identical matching name outputs, `CheckForSellerOutputs` succeeds even
though the number of matching name outputs is 2, not 1. -/
theorem CheckForSellerOutputs_claim_cex :
    TradeChecker.CheckForSellerOutputs "seller" "mv" 0 1
      [⟨1000000, ⟨some "name addr", none,
          some ⟨"name_update", "p/seller", "mv"⟩⟩⟩,
       ⟨1000000, ⟨some "name addr", none,
          some ⟨"name_update", "p/seller", "mv"⟩⟩⟩]
      ⟨some "name addr", some "chi addr", none⟩ = .ok true ∧
    List.countP (isExpectedNameOutput "seller" "mv" "name addr")
      [⟨1000000, ⟨some "name addr", none,
          some ⟨"name_update", "p/seller", "mv"⟩⟩⟩,
       ⟨1000000, ⟨some "name addr", none,
          some ⟨"name_update", "p/seller", "mv"⟩⟩⟩] = 2 := by
  constructor
  · rfl
  · rfl

/-! ### The buyer- and seller-side signature checks (checker.cpp) -/

/-- The `tx` member of a decoded PSBT.  `vin` is the input outpoint list;
all other members (`vout`, `btxid`, ...) only matter for the equality
assertion `CHECK_EQ (before["tx"], after["tx"])` and are collected opaquely
in `rest`. -/
structure Tx where
  vin : List OutPoint
  rest : String
deriving DecidableEq, Repr

/-- A decoded PSBT as used by the signature checks: the unsigned transaction
and the per-input signing data.  The entries of `inputs` are JSON objects
that the code only ever compares for equality, so their type is an arbitrary
`α` with decidable equality. -/
structure DecodedPsbt (α : Type) where
  tx : Tx
  inputs : List α
deriving DecidableEq, Repr

/-- `TradeChecker::CheckForBuyerSignature` (src/checker.cpp:232-272): counts
the input entries changed by signing and succeeds iff all but exactly one
changed.  The two `CHECK`s (unchanged `tx`, equal input counts) crash. -/
def TradeChecker.CheckForBuyerSignature {α : Type} [DecidableEq α]
    (before after : DecodedPsbt α) : CResult Bool :=
  if before.tx ≠ after.tx then .crash
  else if before.inputs.length ≠ after.inputs.length then .crash
  else
    .ok ((before.inputs.zip after.inputs).countP (fun p => p.1 ≠ p.2) + 1
          = before.inputs.length)

/-- `TradeChecker::CheckForSellerSignature` (src/checker.cpp:396-466): finds
the first transaction input matching the seller-data name outpoint (failure
if none) and succeeds iff every input entry at any other position is
unchanged between `before` and `after`. -/
def TradeChecker.CheckForSellerSignature {α : Type} [DecidableEq α]
    (before after : DecodedPsbt α) (sd : SellerData) : CResult Bool :=
  match sd.nameOutput with
  | none => .crash
  | some nm =>
      if before.tx ≠ after.tx then .crash
      else
        match before.tx.vin.findIdx? (fun o => o = nm) with
        | none => .ok false
        | some inputIndex =>
            if before.inputs.length ≠ after.inputs.length then .crash
            else
              .ok ((List.range before.inputs.length).all
                (fun i => i = inputIndex
                  || before.inputs.get? i = after.inputs.get? i))

/-- C3: with the unsigned `tx` unchanged and equally many inputs,
`CheckForBuyerSignature` succeeds iff exactly one input entry is unchanged
by signing (equivalently, the number of changed entries is the input count
minus one). -/
theorem CheckForBuyerSignature_spec {α : Type} [DecidableEq α]
    (before after : DecodedPsbt α)
    (htx : before.tx = after.tx)
    (hlen : before.inputs.length = after.inputs.length) :
    TradeChecker.CheckForBuyerSignature before after = .ok true ↔
      (before.inputs.zip after.inputs).countP (fun p => p.1 = p.2) = 1 := by
  have htx' : ¬ before.tx ≠ after.tx := by simp [htx]
  have hlen' : ¬ before.inputs.length ≠ after.inputs.length := by simp [hlen]
  have hziplen : (before.inputs.zip after.inputs).length
      = before.inputs.length := by
    rw [List.length_zip, hlen, min_self]
  have hcount := List.length_eq_countP_add_countP
    (fun p : α × α => decide (p.1 = p.2)) (before.inputs.zip after.inputs)
  have hsame : (List.countP
        (fun a : α × α => decide (¬ (decide (a.1 = a.2)) = true))
        (before.inputs.zip after.inputs))
      = List.countP (fun p : α × α => decide (p.1 ≠ p.2))
        (before.inputs.zip after.inputs) := by
    apply List.countP_congr
    intro p _
    simp
  rw [hsame, hziplen] at hcount
  have hev : TradeChecker.CheckForBuyerSignature before after
      = .ok (decide ((before.inputs.zip after.inputs).countP
            (fun p => decide (p.1 ≠ p.2)) + 1 = before.inputs.length)) := by
    unfold TradeChecker.CheckForBuyerSignature
    rw [if_neg htx', if_neg hlen']
  rw [hev]
  constructor
  · intro h
    have hb := CResult.ok.inj h
    simp only [decide_eq_true_eq] at hb
    omega
  · intro h
    have hc : ((before.inputs.zip after.inputs).countP
        (fun p : α × α => decide (p.1 ≠ p.2)) + 1 = before.inputs.length) := by
      omega
    rw [decide_eq_true hc]

/-- Witness for C3 (the claim's concrete scenario): a PSBT with three inputs
where signing changed all three fails the buyer-side check. -/
theorem CheckForBuyerSignature_spec_witness :
    TradeChecker.CheckForBuyerSignature (α := String)
        ⟨⟨[], "tx"⟩, ["in0", "in1", "in2"]⟩
        ⟨⟨[], "tx"⟩, ["signed0", "signed1", "signed2"]⟩ ≠ .ok true := by
  intro h
  have := (CheckForBuyerSignature_spec
      ⟨⟨[], "tx"⟩, ["in0", "in1", "in2"]⟩
      ⟨⟨[], "tx"⟩, ["signed0", "signed1", "signed2"]⟩ rfl rfl).mp h
  exact absurd this (by decide)

/-- C2: with the name outpoint set in the seller data, the unsigned `tx`
unchanged, and equally many input entries, `CheckForSellerSignature`
succeeds iff some transaction input matches the name outpoint (the relevant
position being the first such match) and every input entry at any other
position is unchanged between `before` and `after`.  In particular it fails
when no input matches the outpoint, and entries already carrying signatures
before signing are fine as long as they are unchanged. -/
theorem CheckForSellerSignature_spec {α : Type} [DecidableEq α]
    (before after : DecodedPsbt α) (sd : SellerData) (nm : OutPoint)
    (hsd : sd.nameOutput = some nm)
    (htx : before.tx = after.tx)
    (hlen : before.inputs.length = after.inputs.length) :
    TradeChecker.CheckForSellerSignature before after sd = .ok true ↔
      ∃ k, k < before.tx.vin.length ∧
        before.tx.vin.get? k = some nm ∧
        (∀ j, j < k → before.tx.vin.get? j ≠ some nm) ∧
        (∀ j, j < before.inputs.length → j ≠ k →
          before.inputs.get? j = after.inputs.get? j) := by
  have htx' : ¬ before.tx ≠ after.tx := by simp [htx]
  have hlen' : ¬ before.inputs.length ≠ after.inputs.length := by simp [hlen]
  rcases hfind : before.tx.vin.findIdx? (fun o => decide (o = nm)) with _ | k
  · have hev : TradeChecker.CheckForSellerSignature before after sd
        = .ok false := by
      simp only [TradeChecker.CheckForSellerSignature, hsd]
      rw [if_neg htx', hfind]
    rw [hev]
    rw [List.findIdx?_eq_none_iff] at hfind
    constructor
    · intro h
      exact absurd (CResult.ok.inj h) (by decide)
    · rintro ⟨k, hk, hmem, -, -⟩
      rw [List.get?_eq_getElem?, List.getElem?_eq_getElem hk] at hmem
      have := hfind _ (List.getElem_mem hk)
      simp [Option.some.inj hmem] at this
  · have hev : TradeChecker.CheckForSellerSignature before after sd
        = .ok ((List.range before.inputs.length).all
            (fun i => decide (i = k)
              || decide (before.inputs.get? i = after.inputs.get? i))) := by
      simp only [TradeChecker.CheckForSellerSignature, hsd]
      rw [if_neg htx', hfind]
      dsimp only
      rw [if_neg hlen']
    rw [hev]
    rw [List.findIdx?_eq_some_iff_getElem] at hfind
    rcases hfind with ⟨hklen, hkeq, hkfirst⟩
    simp only [decide_eq_true_eq] at hkeq hkfirst
    constructor
    · intro h
      have hb := CResult.ok.inj h
      rw [List.all_eq_true] at hb
      refine ⟨k, hklen, ?_, fun j hj => ?_, fun j hjlen hjk => ?_⟩
      · rw [List.get?_eq_getElem?, List.getElem?_eq_getElem hklen, hkeq]
      · have hjl : j < before.tx.vin.length := lt_trans hj hklen
        rw [List.get?_eq_getElem?, List.getElem?_eq_getElem hjl]
        intro hcon
        exact hkfirst j hj (Option.some.inj hcon)
      · have := hb j (List.mem_range.mpr hjlen)
        simp only [Bool.or_eq_true, decide_eq_true_eq] at this
        rcases this with h1 | h2
        · exact absurd h1 hjk
        · exact h2
    · rintro ⟨m, hmlen, hmeq, hmfirst, hother⟩
      rw [List.get?_eq_getElem?, List.getElem?_eq_getElem hmlen] at hmeq
      have hmeq' := Option.some.inj hmeq
      have hmk : m = k := by
        rcases lt_trichotomy m k with h | h | h
        · exact absurd hmeq' (hkfirst m h)
        · exact h
        · refine absurd ?_ (hmfirst k h)
          rw [List.get?_eq_getElem?, List.getElem?_eq_getElem hklen, hkeq]
      subst hmk
      have hall : (List.range before.inputs.length).all
          (fun i => decide (i = m)
            || decide (before.inputs.get? i = after.inputs.get? i)) = true := by
        rw [List.all_eq_true]
        intro j hj
        rw [List.mem_range] at hj
        by_cases hjm : j = m
        · simp [hjm]
        · have h2 : decide (before.inputs.get? j = after.inputs.get? j)
              = true := decide_eq_true (hother j hj hjm)
          rw [h2, Bool.or_true]
      rw [hall]

/-- Witness for C2 (the claim's concrete scenario): name outpoint
`("nm txid", 12)` at position 1; the other input already carried a
signature before signing and is unchanged, only the name input changed —
the check passes. -/
theorem CheckForSellerSignature_spec_witness :
    TradeChecker.CheckForSellerSignature (α := String)
        ⟨⟨[⟨"other txid", 1⟩, ⟨"nm txid", 12⟩], "tx"⟩,
         ["already signed", "unsigned name input"]⟩
        ⟨⟨[⟨"other txid", 1⟩, ⟨"nm txid", 12⟩], "tx"⟩,
         ["already signed", "signed name input"]⟩
        ⟨none, none, some ⟨"nm txid", 12⟩⟩ = .ok true := by
  refine (CheckForSellerSignature_spec (α := String)
      ⟨⟨[⟨"other txid", 1⟩, ⟨"nm txid", 12⟩], "tx"⟩,
       ["already signed", "unsigned name input"]⟩
      ⟨⟨[⟨"other txid", 1⟩, ⟨"nm txid", 12⟩], "tx"⟩,
       ["already signed", "signed name input"]⟩
      ⟨none, none, some ⟨"nm txid", 12⟩⟩ ⟨"nm txid", 12⟩
      rfl rfl rfl).mpr ⟨1, by decide, rfl, ?_, ?_⟩
  · intro j hj
    have hj0 : j = 0 := by omega
    subst hj0
    decide
  · intro j hjlen hjk
    have hl2 : ((⟨⟨[⟨"other txid", 1⟩, ⟨"nm txid", 12⟩], "tx"⟩,
        ["already signed", "unsigned name input"]⟩ :
          DecodedPsbt String)).inputs.length = 2 := rfl
    rw [hl2] at hjlen
    have : j = 0 := by omega
    subst this
    rfl

/-! ### Name decoding in the authenticator (authenticator.cpp)

Local parts of chat identities are byte strings; they are modelled as
`List Nat` (one entry per byte).  Byte 120 is `x`, byte 45 is `-`. -/

/-- `IsSimpleChar` (src/authenticator.cpp:61-69): lowercase ASCII
alphanumeric. -/
def IsSimpleChar (c : Nat) : Bool :=
  (48 ≤ c && c ≤ 57) || (97 ≤ c && c ≤ 122)

/-- `HexCharValue` (src/authenticator.cpp:75-83): the value of a lowercase
hex digit byte, and `-1` when the byte is not one. -/
def HexCharValue (c : Nat) : Int :=
  if 48 ≤ c ∧ c ≤ 57 then (c : Int) - 48
  else if 97 ≤ c ∧ c ≤ 102 then 10 + (c : Int) - 97
  else -1

/-- The hex-decoding loop of `DecodeName` (src/authenticator.cpp:121-149),
processing the even-length hex part two digits at a time.  Returns the
decoded bytes together with the `foundNonSimple` flag; `none` models the
early `return false` on an invalid digit. -/
def decodeHexLoop : List Nat → Option (List Nat × Bool)
  | [] => some ([], false)
  | [_] => none
  | hi :: lo :: rest =>
      if HexCharValue hi = -1 then none
      else if HexCharValue lo = -1 then none
      else
        match decodeHexLoop rest with
        | none => none
        | some (bs, fns) =>
            some (((HexCharValue hi).toNat * 16 + (HexCharValue lo).toNat)
                :: bs,
              (!IsSimpleChar
                  ((HexCharValue hi).toNat * 16 + (HexCharValue lo).toNat))
                || fns)

/-- `DecodeName` (src/authenticator.cpp:91-160). -/
def DecodeName (name : List Nat) : Option (List Nat) :=
  if name = [] then none
  else if name.take 2 ≠ [120, 45] then
    (if name.all IsSimpleChar then some name else none)
  else
    if (name.drop 2).length % 2 ≠ 0 then none
    else if name.drop 2 = [] then some []
    else
      match decodeHexLoop (name.drop 2) with
      | none => none
      | some (bs, fns) => if fns then some bs else none

/-- Modelled from the spec (§4.4): the value of a lowercase hex digit,
specification-side. -/
def hexVal (c : Nat) : Option Nat :=
  if 48 ≤ c ∧ c ≤ 57 then some (c - 48)
  else if 97 ≤ c ∧ c ≤ 102 then some (c - 87)
  else none

/-- Modelled from the spec (§4.4): plain pairwise lowercase-hex decoding of
an even-length digit string into bytes. -/
def specHexDecode : List Nat → Option (List Nat)
  | [] => some []
  | [_] => none
  | hi :: lo :: rest =>
      match hexVal hi, hexVal lo, specHexDecode rest with
      | some h, some l, some bs => some ((16 * h + l) :: bs)
      | _, _, _ => none

/-- Modelled from the spec (§4.4): the lowercase hex digit byte of a value
below 16. -/
def hexDigit (v : Nat) : Nat := if v < 10 then 48 + v else 87 + v

/-- Modelled from the spec (§4.4): the encoding of an account name into a
chat local part — the name itself when it is non-empty and all-simple,
otherwise the marker `"x-"` followed by the lowercase hex encoding of its
bytes (the empty account encodes as just `"x-"`).  The encoder is not among
the sources at hand (local parts are produced by the chat client / XID
stack); this follows the spec's stated rule. -/
def EncodeName (account : List Nat) : List Nat :=
  if account ≠ [] ∧ account.all IsSimpleChar then account
  else 120 :: 45 ::
    (account.map (fun b => [hexDigit (b / 16), hexDigit (b % 16)])).flatten

theorem hexVal_lt (c v : Nat) (h : hexVal c = some v) : v < 16 := by
  unfold hexVal at h
  split at h
  · rename_i hc
    have := Option.some.inj h
    omega
  · split at h
    · rename_i hc
      have := Option.some.inj h
      omega
    · exact absurd h (by simp)

theorem hexDigit_hexVal (c v : Nat) (h : hexVal c = some v) :
    hexDigit v = c := by
  unfold hexVal at h
  unfold hexDigit
  split at h
  · rename_i hc
    have := Option.some.inj h
    split <;> omega
  · split at h
    · rename_i hc
      have := Option.some.inj h
      split <;> omega
    · exact absurd h (by simp)

theorem hexCharValue_none (c : Nat) (h : hexVal c = none) :
    HexCharValue c = -1 := by
  unfold hexVal at h
  unfold HexCharValue
  split at h
  · simp at h
  · rename_i hc
    rw [if_neg hc]
    split at h
    · simp at h
    · rename_i hc2
      rw [if_neg hc2]

theorem hexCharValue_some (c v : Nat) (h : hexVal c = some v) :
    HexCharValue c = (v : Int) := by
  unfold hexVal at h
  unfold HexCharValue
  split at h
  · rename_i hc
    rw [if_pos hc]
    have := Option.some.inj h
    omega
  · rename_i hc
    rw [if_neg hc]
    split at h
    · rename_i hc2
      rw [if_pos hc2]
      have := Option.some.inj h
      omega
    · exact absurd h (by simp)

theorem decodeHexLoop_eq_spec : ∀ h : List Nat,
    decodeHexLoop h = (match specHexDecode h with
      | none => none
      | some bs => some (bs, bs.any (fun b => !IsSimpleChar b)))
  | [] => rfl
  | [_] => rfl
  | hi :: lo :: rest => by
      have ih := decodeHexLoop_eq_spec rest
      simp only [decodeHexLoop, specHexDecode]
      rcases hvhi : hexVal hi with _ | v
      · rw [if_pos (hexCharValue_none hi hvhi)]
      · rw [if_neg (by rw [hexCharValue_some hi v hvhi]; omega)]
        rcases hvlo : hexVal lo with _ | w
        · rw [if_pos (hexCharValue_none lo hvlo)]
        · rw [if_neg (by rw [hexCharValue_some lo w hvlo]; omega)]
          rw [ih]
          rcases hrec : specHexDecode rest with _ | bs
          · rfl
          · have hb : (HexCharValue hi).toNat * 16 + (HexCharValue lo).toNat
                = 16 * v + w := by
              rw [hexCharValue_some hi v hvhi, hexCharValue_some lo w hvlo]
              simp only [Int.toNat_ofNat]
              ring
            rw [hb]
            simp [List.any_cons]

theorem specHexDecode_toHex : ∀ (h bs : List Nat),
    specHexDecode h = some bs →
    (bs.map (fun b => [hexDigit (b / 16), hexDigit (b % 16)])).flatten = h
  | [], bs => fun hd => by
      have hbs : ([] : List Nat) = bs := Option.some.inj hd
      subst hbs
      rfl
  | [c], bs => fun hd => Option.noConfusion hd
  | hi :: lo :: rest, bs => fun hd => by
      simp only [specHexDecode] at hd
      rcases hvhi : hexVal hi with _ | v
      all_goals rcases hvlo : hexVal lo with _ | w
      all_goals rcases hrec : specHexDecode rest with _ | bs2
      all_goals rw [hvhi, hvlo, hrec] at hd
      · exact Option.noConfusion hd
      · exact Option.noConfusion hd
      · exact Option.noConfusion hd
      · exact Option.noConfusion hd
      · exact Option.noConfusion hd
      · exact Option.noConfusion hd
      · exact Option.noConfusion hd
      · have hb := Option.some.inj hd
        subst hb
        have hw : w < 16 := hexVal_lt lo w hvlo
        have hdiv : (16 * v + w) / 16 = v := by omega
        have hmod : (16 * v + w) % 16 = w := by omega
        have ih := specHexDecode_toHex rest bs2 hrec
        simp only [List.map_cons, List.flatten_cons, hdiv, hmod]
        rw [hexDigit_hexVal hi v hvhi, hexDigit_hexVal lo w hvlo, ih]
        rfl

theorem decodeName_plain_eq (name : List Nat)
    (hx : name.take 2 ≠ [120, 45]) :
    DecodeName name
      = if name = [] then none
        else if name.all IsSimpleChar then some name else none := by
  unfold DecodeName
  by_cases hnil : name = []
  · rw [if_pos hnil, if_pos hnil]
  · rw [if_neg hnil, if_neg hnil, if_pos hx]

theorem decodeName_enc_eq (h : List Nat) :
    DecodeName (120 :: 45 :: h)
      = if h.length % 2 ≠ 0 then none
        else if h = [] then some []
        else match decodeHexLoop h with
          | none => none
          | some (bs, fns) => if fns then some bs else none := by
  unfold DecodeName
  rw [if_neg (by simp), if_neg (by simp)]
  rfl

/-- C5: name decoding in the authenticator.  (1) A local part not starting
with the marker `"x-"` is accepted iff it is non-empty lowercase ASCII
alphanumeric, and decodes to itself.  (2) A local part `"x-" ++ h` is
accepted iff `h` has even length and is lowercase hex that is either empty
or decodes to bytes with at least one non-simple byte; when accepted it
decodes to exactly the hex-decoded bytes.  (3) Round-trip:
`EncodeName (DecodeName n) = n` for every accepted `n`.  (4) The
hex-encoding of the all-simple name `"abc"` (`"x-616263"`) is rejected.
(5) Upper-case hex (`"x-2D"`) is rejected. -/
theorem DecodeName_spec :
    (∀ name : List Nat, name.take 2 ≠ [120, 45] →
      (((DecodeName name).isSome ↔
          name ≠ [] ∧ name.all IsSimpleChar = true) ∧
       ∀ d, DecodeName name = some d → d = name)) ∧
    (∀ h : List Nat,
      (((DecodeName (120 :: 45 :: h)).isSome ↔
          h.length % 2 = 0 ∧
            (h = [] ∨ ∃ bs, specHexDecode h = some bs ∧
              bs.any (fun b => !IsSimpleChar b) = true)) ∧
       ∀ d, DecodeName (120 :: 45 :: h) = some d → specHexDecode h = some d)) ∧
    (∀ name d, DecodeName name = some d → EncodeName d = name) ∧
    DecodeName [120, 45, 54, 49, 54, 50, 54, 51] = none ∧
    DecodeName [120, 45, 50, 68] = none := by
  have P1 : ∀ name : List Nat, name.take 2 ≠ [120, 45] →
      (((DecodeName name).isSome ↔
          name ≠ [] ∧ name.all IsSimpleChar = true) ∧
       ∀ d, DecodeName name = some d → d = name) := by
    intro name hx
    rw [decodeName_plain_eq name hx]
    by_cases hnil : name = []
    · simp [hnil]
    · by_cases hall : name.all IsSimpleChar
      · simp [hnil, hall]
      · simp [hnil, hall]
  have P2 : ∀ h : List Nat,
      (((DecodeName (120 :: 45 :: h)).isSome ↔
          h.length % 2 = 0 ∧
            (h = [] ∨ ∃ bs, specHexDecode h = some bs ∧
              bs.any (fun b => !IsSimpleChar b) = true)) ∧
       ∀ d, DecodeName (120 :: 45 :: h) = some d →
          specHexDecode h = some d) := by
    intro h
    rw [decodeName_enc_eq h]
    by_cases hodd : h.length % 2 = 0
    · rw [if_neg (by omega)]
      by_cases hnil : h = []
      · subst hnil
        rw [if_pos rfl]
        refine ⟨⟨fun _ => ⟨hodd, Or.inl rfl⟩, fun _ => rfl⟩, fun d hd => ?_⟩
        rw [← Option.some.inj hd]
        rfl
      · rw [if_neg hnil, decodeHexLoop_eq_spec h]
        rcases hrec : specHexDecode h with _ | bs
        · constructor
          · constructor
            · intro hcon
              simp at hcon
            · rintro ⟨-, hcase⟩
              rcases hcase with hnil2 | ⟨bs, hbs, -⟩
              · exact absurd hnil2 hnil
              · exact Option.noConfusion hbs
          · intro d hd
            simp at hd
        · dsimp only
          by_cases hany : bs.any (fun b => !IsSimpleChar b) = true
          · rw [if_pos hany]
            exact ⟨⟨fun _ => ⟨hodd, Or.inr ⟨bs, rfl, hany⟩⟩, fun _ => rfl⟩,
              fun d hd => hd⟩
          · rw [if_neg hany]
            constructor
            · constructor
              · intro hcon
                simp at hcon
              · rintro ⟨-, hcase⟩
                rcases hcase with hnil2 | ⟨bs2, hbs2, hany2⟩
                · exact absurd hnil2 hnil
                · rw [← Option.some.inj hbs2] at hany2
                  exact absurd hany2 hany
            · intro d hd
              exact Option.noConfusion hd
    · rw [if_pos (by omega)]
      constructor
      · constructor
        · intro hcon
          simp at hcon
        · rintro ⟨heven, -⟩
          exact absurd heven hodd
      · intro d hd
        exact Option.noConfusion hd
  refine ⟨P1, P2, ?_, by decide, by decide⟩
  intro name d hdec
  by_cases hx : name.take 2 = [120, 45]
  · obtain ⟨h, rfl⟩ : ∃ h, name = 120 :: 45 :: h := by
      rcases name with _ | ⟨a, _ | ⟨b, t⟩⟩
      · exact absurd hx (by simp)
      · exact absurd hx (by simp)
      · refine ⟨t, ?_⟩
        have : a = 120 ∧ b = 45 := by
          have h2 : (a :: b :: t).take 2 = [a, b] := rfl
          rw [h2] at hx
          exact ⟨(List.cons.inj hx).1, (List.cons.inj (List.cons.inj hx).2).1⟩
        rw [this.1, this.2]
    have hval := (P2 h).2 d hdec
    rw [decodeName_enc_eq h, decodeHexLoop_eq_spec h] at hdec
    by_cases hodd : h.length % 2 = 0
    · rw [if_neg (by omega)] at hdec
      by_cases hnil : h = []
      · subst hnil
        rw [if_pos rfl] at hdec
        have hd0 : ([] : List Nat) = d := Option.some.inj hdec
        subst hd0
        rfl
      · rw [if_neg hnil] at hdec
        rcases hrec : specHexDecode h with _ | bs
        · rw [hrec] at hdec
          dsimp only at hdec
          exact Option.noConfusion hdec
        · rw [hrec] at hdec
          dsimp only at hdec
          by_cases hany : bs.any (fun b => !IsSimpleChar b) = true
          · rw [if_pos hany] at hdec
            have hdbs : bs = d := Option.some.inj hdec
            subst hdbs
            have hnotall : ¬ (bs ≠ [] ∧ bs.all IsSimpleChar = true) := by
              rintro ⟨-, hall⟩
              rw [List.any_eq_true] at hany
              rcases hany with ⟨b, hbmem, hbns⟩
              rw [List.all_eq_true] at hall
              have := hall b hbmem
              rw [this] at hbns
              exact Bool.noConfusion hbns
            unfold EncodeName
            rw [if_neg hnotall, specHexDecode_toHex h bs hrec]
          · rw [if_neg hany] at hdec
            exact Option.noConfusion hdec
    · rw [if_pos (by omega)] at hdec
      exact Option.noConfusion hdec
  · have hp := (P1 name hx).2 d hdec
    subst hp
    have hsome : (DecodeName d).isSome := by rw [hdec]; rfl
    have := ((P1 d hx).1).mp hsome
    unfold EncodeName
    rw [if_pos this]

/-- Witness for C5: the spec's scenario `x-c3a4c3b6c3bc` decodes to the
UTF-8 bytes of `äöü`, and re-encoding gives back exactly the accepted local
part (round-trip). -/
theorem DecodeName_spec_witness :
    EncodeName [195, 164, 195, 182, 195, 188]
      = [120, 45, 99, 51, 97, 52, 99, 51, 98, 54, 99, 51, 98, 99] :=
  DecodeName_spec.2.2.1
    [120, 45, 99, 51, 97, 52, 99, 51, 98, 54, 99, 51, 98, 99]
    [195, 164, 195, 182, 195, 188] (by decide)

/-! ### Orders and the per-trade state (proto data model, trades.cpp)

The protobuf schema files are not among the sources at hand; the message
shapes follow the specification's data model, with `Option` fields for
protobuf presence bits (`has_foo`). -/

/-- `proto::Order::Type`. -/
inductive OrderType where
  | bid : OrderType
  | ask : OrderType
deriving DecidableEq, Repr

/-- `proto::Order` with its optional fields. -/
structure Order where
  account : Option String
  id : Option Nat
  asset : Option String
  type : Option OrderType
  priceSat : Option Int
  minUnits : Option Int
  maxUnits : Option Int
  locked : Option Bool
deriving DecidableEq, Repr

/-- `proto::Trade::State`. -/
inductive TState where
  | initiated : TState
  | pending : TState
  | success : TState
  | failed : TState
  | abandoned : TState
deriving DecidableEq, Repr

/-- `proto::TradeState`, the record of one live trade.  `ourPsbt` holds, when
set, the input outpoints of the decoded `our_psbt` transaction (`Update`
reads `decodepsbt (our_psbt)["tx"]["vin"]`, modelled directly as the decoded
list). -/
structure TradeState where
  order : Order
  startTime : Int
  units : Int
  counterparty : String
  state : TState
  sellerData : Option SellerData
  ourPsbt : Option (List OutPoint)
  conflictHeight : Option Nat
deriving DecidableEq, Repr

/-! ### The periodic trade update (trades.cpp, Trade::Update) -/

/-- The decoded reply of the GSP `checktrade` call: the GSP's current best
height (`height`), the trade state string (`data.state`) and, when present,
the confirmation height (`data.height`). -/
structure CheckTradeResult where
  height : Nat
  state : String
  dataHeight : Option Nat
deriving DecidableEq, Repr

/-- The external observations made by one run of `Trade::Update`: the
current time in seconds (`TradeManager::GetCurrentTime`), the `checktrade`
reply for the trade's btxid, and which outpoints `gettxout` still reports
as unspent. -/
structure UpdateEnv where
  now : Int
  check : CheckTradeResult
  utxoExists : OutPoint → Bool

/-- `Trade::Update` (src/trades.cpp:627-754).  `confirmations` is the
`democrit_confirmations` flag (default 6) and `timeoutMs` the
`democrit_trade_timeout_ms` flag (default 30000); trade times are in
seconds, so the timeout comparison scales them by 1000.  Crashes model
`CHECK (pb.has_our_psbt ())` and the assertions on the `checktrade`
reply. -/
def Trade.Update (confirmations : Nat) (timeoutMs : Int) (env : UpdateEnv)
    (t : TradeState) : CResult TradeState :=
  if t.state = .initiated then
    .ok (if (env.now - t.startTime) * 1000 > timeoutMs
         then {t with state := .abandoned} else t)
  else if t.state ≠ .pending then .ok t
  else match t.ourPsbt with
    | none => .crash
    | some vin =>
        if env.check.state = "confirmed" then
          match env.check.dataHeight with
          | none => .crash
          | some confHeight =>
              if env.check.height < confHeight then .crash
              else if confHeight + confirmations ≤ env.check.height + 1 then
                .ok {t with state := .success}
              else .ok {t with conflictHeight := none}
        else if env.check.state ≠ "unknown" then
          .ok {t with conflictHeight := none}
        else if vin.all env.utxoExists then
          .ok {t with conflictHeight := none}
        else match t.conflictHeight with
          | none => .ok {t with conflictHeight := some env.check.height}
          | some ch =>
              if ch + confirmations ≤ env.check.height + 1 then
                .ok {t with state := .failed}
              else .ok t

/-- C4: `Trade::Update` changes a trade only as follows.  An `INITIATED`
trade past the trade timeout becomes `ABANDONED` (and is otherwise
untouched).  Trades in `SUCCESS`, `FAILED` or `ABANDONED` are never
modified.  A `PENDING` trade reported `confirmed` at height `h` with tip `H`
becomes `SUCCESS` iff `h + confirmations ≤ H + 1`, and otherwise only has
its conflict height cleared; any other non-`unknown` report clears the
conflict height and keeps `PENDING`.  On `unknown`: if all inputs are still
unspent the conflict height is cleared; otherwise it is set to `H` on first
observation, and once recorded, the trade becomes `FAILED` iff
`conflict_height + confirmations ≤ H + 1`. -/
theorem Trade_Update_spec (confirmations : Nat) (timeoutMs : Int)
    (env : UpdateEnv) (t : TradeState) :
    (t.state = .initiated →
      Trade.Update confirmations timeoutMs env t
        = .ok (if (env.now - t.startTime) * 1000 > timeoutMs
               then {t with state := .abandoned} else t)) ∧
    ((t.state = .success ∨ t.state = .failed ∨ t.state = .abandoned) →
      Trade.Update confirmations timeoutMs env t = .ok t) ∧
    (∀ vin confHeight, t.state = .pending → t.ourPsbt = some vin →
      env.check.state = "confirmed" →
      env.check.dataHeight = some confHeight →
      confHeight ≤ env.check.height →
      ((confHeight + confirmations ≤ env.check.height + 1 →
          Trade.Update confirmations timeoutMs env t
            = .ok {t with state := .success}) ∧
       (¬ (confHeight + confirmations ≤ env.check.height + 1) →
          Trade.Update confirmations timeoutMs env t
            = .ok {t with conflictHeight := none}))) ∧
    (∀ vin, t.state = .pending → t.ourPsbt = some vin →
      env.check.state ≠ "confirmed" → env.check.state ≠ "unknown" →
      Trade.Update confirmations timeoutMs env t
        = .ok {t with conflictHeight := none}) ∧
    (∀ vin, t.state = .pending → t.ourPsbt = some vin →
      env.check.state = "unknown" →
      ((vin.all env.utxoExists = true →
          Trade.Update confirmations timeoutMs env t
            = .ok {t with conflictHeight := none}) ∧
       (vin.all env.utxoExists = false →
          ((t.conflictHeight = none →
              Trade.Update confirmations timeoutMs env t
                = .ok {t with conflictHeight := some env.check.height}) ∧
           (∀ ch, t.conflictHeight = some ch →
              ((ch + confirmations ≤ env.check.height + 1 →
                  Trade.Update confirmations timeoutMs env t
                    = .ok {t with state := .failed}) ∧
               (¬ (ch + confirmations ≤ env.check.height + 1) →
                  Trade.Update confirmations timeoutMs env t
                    = .ok t))))))) := by
  refine ⟨?_, ?_, ?_, ?_, ?_⟩
  · intro h
    unfold Trade.Update
    rw [if_pos h]
  · intro h
    unfold Trade.Update
    rcases h with h | h | h <;>
      rw [if_neg (by rw [h]; intro hc; exact TState.noConfusion hc),
        if_pos (by rw [h]; intro hc; exact TState.noConfusion hc)]
  · intro vin confHeight hpend hpsbt hconf hdh hle
    unfold Trade.Update
    rw [if_neg (by rw [hpend]; intro hc; exact TState.noConfusion hc),
      if_neg (by rw [hpend]; simp), hpsbt]
    dsimp only
    rw [if_pos hconf, hdh]
    dsimp only
    rw [if_neg (by omega)]
    constructor
    · intro hdeep
      rw [if_pos hdeep]
    · intro hdeep
      rw [if_neg hdeep]
  · intro vin hpend hpsbt hnc hnu
    unfold Trade.Update
    rw [if_neg (by rw [hpend]; intro hc; exact TState.noConfusion hc),
      if_neg (by rw [hpend]; simp), hpsbt]
    dsimp only
    rw [if_neg hnc, if_pos hnu]
  · intro vin hpend hpsbt hu
    unfold Trade.Update
    rw [if_neg (by rw [hpend]; intro hc; exact TState.noConfusion hc),
      if_neg (by rw [hpend]; simp), hpsbt]
    dsimp only
    rw [if_neg (by rw [hu]; simp), if_neg (by rw [hu]; simp)]
    constructor
    · intro hall
      rw [if_pos hall]
    · intro hall
      rw [if_neg (by rw [hall]; simp)]
      constructor
      · intro hch
        rw [hch]
      · intro ch hch
        rw [hch]
        dsimp only
        constructor
        · intro hdeep
          rw [if_pos hdeep]
        · intro hdeep
          rw [if_neg hdeep]

/-- Witness for C4: a concrete `PENDING` trade whose GSP report is
`confirmed` at height 10 with tip 15 and `confirmations = 6` becomes
`SUCCESS` (10 + 6 ≤ 15 + 1). -/
theorem Trade_Update_spec_witness :
    Trade.Update 6 30000
        ⟨1000, ⟨15, "confirmed", some 10⟩, fun _ => true⟩
        ⟨⟨none, none, none, none, none, none, none, none⟩,
          0, 1, "cp", .pending, none, some [], none⟩
      = .ok {(⟨⟨none, none, none, none, none, none, none, none⟩,
          0, 1, "cp", .pending, none, some [], none⟩ : TradeState)
            with state := .success} :=
  ((Trade_Update_spec 6 30000
      ⟨1000, ⟨15, "confirmed", some 10⟩, fun _ => true⟩
      ⟨⟨none, none, none, none, none, none, none, none⟩,
        0, 1, "cp", .pending, none, some [], none⟩).2.2.1
    [] 10 rfl rfl rfl rfl (by norm_num)).1 (by norm_num)

/-! ### Merging received seller data (trades.cpp, Trade::MergeSellerData) -/

/-- `proto::Trade::Role`. -/
inductive Role where
  | maker : Role
  | taker : Role
deriving DecidableEq, Repr

/-- `Trade::GetRole` (src/trades.cpp:152-158): maker iff the order's account
is our own account (`account()` reads as the empty string when unset). -/
def Trade.GetRole (selfAccount : String) (t : TradeState) : Role :=
  if t.order.account.getD "" = selfAccount then .maker else .taker

/-- `Trade::GetOrderType` (src/trades.cpp:133-150): the maker keeps the
order's type, the taker inverts it.  An unset type is a `LOG(FATAL)`
(crash). -/
def Trade.GetOrderType (selfAccount : String) (t : TradeState) :
    CResult OrderType :=
  match t.order.type, Trade.GetRole selfAccount t with
  | none, _ => .crash
  | some ty, .maker => .ok ty
  | some .bid, .taker => .ok .ask
  | some .ask, .taker => .ok .bid

/-- `Trade::MergeSellerData` (src/trades.cpp:222-261): the received seller
data is stored only when we are the buyer, no seller data is present yet,
both addresses are set, the name outpoint is *not* set, and the two
addresses differ; in every rejection case the trade is left unchanged. -/
def Trade.MergeSellerData (selfAccount : String) (t : TradeState)
    (sd : SellerData) : CResult TradeState :=
  match Trade.GetOrderType selfAccount t with
  | .crash => .crash
  | .ok ty =>
      if ty = .ask then .ok t
      else if t.sellerData.isSome then .ok t
      else if ¬ sd.nameAddress.isSome ∨ ¬ sd.chiAddress.isSome
          ∨ sd.nameOutput.isSome then .ok t
      else if sd.nameAddress.getD "" = sd.chiAddress.getD "" then .ok t
      else .ok {t with sellerData := some sd}

/-- C10: whenever the incoming seller data carries a `name_output`, or either
address is missing, or the two addresses coincide, or we are the seller
(order type `ASK` from our viewpoint), or seller data is already present,
`Trade::MergeSellerData` leaves the trade completely unchanged — in
particular it never stores the data with the outpoint stripped. -/
theorem Trade_MergeSellerData_spec (selfAccount : String) (t : TradeState)
    (sd : SellerData) (ty : OrderType)
    (hty : Trade.GetOrderType selfAccount t = .ok ty) :
    (sd.nameOutput.isSome →
      Trade.MergeSellerData selfAccount t sd = .ok t) ∧
    (sd.nameAddress = none →
      Trade.MergeSellerData selfAccount t sd = .ok t) ∧
    (sd.chiAddress = none →
      Trade.MergeSellerData selfAccount t sd = .ok t) ∧
    (sd.nameAddress.getD "" = sd.chiAddress.getD "" →
      Trade.MergeSellerData selfAccount t sd = .ok t) ∧
    (ty = .ask → Trade.MergeSellerData selfAccount t sd = .ok t) ∧
    (t.sellerData.isSome →
      Trade.MergeSellerData selfAccount t sd = .ok t) := by
  have hev : Trade.MergeSellerData selfAccount t sd
      = (if ty = .ask then .ok t
         else if t.sellerData.isSome then .ok t
         else if ¬ sd.nameAddress.isSome ∨ ¬ sd.chiAddress.isSome
             ∨ sd.nameOutput.isSome then .ok t
         else if sd.nameAddress.getD "" = sd.chiAddress.getD "" then .ok t
         else .ok {t with sellerData := some sd}) := by
    unfold Trade.MergeSellerData
    rw [hty]
  refine ⟨?_, ?_, ?_, ?_, ?_, ?_⟩ <;> intro h <;> rw [hev]
  · by_cases h1 : ty = .ask
    · rw [if_pos h1]
    · rw [if_neg h1]
      by_cases h2 : t.sellerData.isSome
      · rw [if_pos h2]
      · rw [if_neg h2, if_pos (Or.inr (Or.inr h))]
  · by_cases h1 : ty = .ask
    · rw [if_pos h1]
    · rw [if_neg h1]
      by_cases h2 : t.sellerData.isSome
      · rw [if_pos h2]
      · rw [if_neg h2, if_pos (Or.inl (by rw [h]; simp))]
  · by_cases h1 : ty = .ask
    · rw [if_pos h1]
    · rw [if_neg h1]
      by_cases h2 : t.sellerData.isSome
      · rw [if_pos h2]
      · rw [if_neg h2, if_pos (Or.inr (Or.inl (by rw [h]; simp)))]
  · by_cases h1 : ty = .ask
    · rw [if_pos h1]
    · rw [if_neg h1]
      by_cases h2 : t.sellerData.isSome
      · rw [if_pos h2]
      · rw [if_neg h2]
        by_cases h3 : ¬ sd.nameAddress.isSome ∨ ¬ sd.chiAddress.isSome
            ∨ sd.nameOutput.isSome
        · rw [if_pos h3]
        · rw [if_neg h3, if_pos h]
  · rw [if_pos h]
  · by_cases h1 : ty = .ask
    · rw [if_pos h1]
    · rw [if_neg h1, if_pos h]

/-- Witness for C10: we are the buyer (taker of an `ASK` order), no seller
data yet, both addresses set and distinct, but the message carries a
`name_output` — it is rejected and the trade is unchanged. -/
theorem Trade_MergeSellerData_spec_witness :
    Trade.MergeSellerData "self"
        ⟨⟨some "maker", some 1, some "gold", some .ask, some 5,
            none, some 10, none⟩,
          0, 3, "maker", .initiated, none, none, none⟩
        ⟨some "name addr", some "chi addr", some ⟨"nm txid", 12⟩⟩
      = .ok ⟨⟨some "maker", some 1, some "gold", some .ask, some 5,
            none, some 10, none⟩,
          0, 3, "maker", .initiated, none, none, none⟩ :=
  (Trade_MergeSellerData_spec "self"
      ⟨⟨some "maker", some 1, some "gold", some .ask, some 5,
          none, some 10, none⟩,
        0, 3, "maker", .initiated, none, none, none⟩
      ⟨some "name addr", some "chi addr", some ⟨"nm txid", 12⟩⟩
      .bid rfl).1 rfl

/-! ### Taking orders and error handling (trades.cpp, myorders.cpp) -/

/-- `CheckOrder` (src/trades.cpp:919-939): the units must lie within the
order's min/max range (proto accessors read 0 when unset) and all identity
fields must be present. -/
def CheckOrder (o : Order) (units : Int) : Bool :=
  if units > o.maxUnits.getD 0 ∨ units < o.minUnits.getD 0 then false
  else o.account.isSome && o.id.isSome && o.asset.isSome && o.type.isSome
    && o.priceSat.isSome

/-- The fresh `proto::TradeState` built by `TradeManager::TakeOrder` /
`OrderTaken` (src/trades.cpp:950-955, 1005-1010). -/
def initialTradeData (o : Order) (units now : Int) (counterparty : String) :
    TradeState :=
  ⟨o, now, units, counterparty, .initiated, none, none, none⟩

/-- `TradeManager::TakeOrder` (src/trades.cpp:943-996).  The run of
`Trade::HasReply` on the fresh trade performs wallet RPC calls; it is
abstracted by the oracle `hasReplyOutcome`: `.error ()` models a thrown
`jsonrpc::JsonRpcException` (caught by the code), `.ok f` a successful run
that mutated the fresh trade data to `f data` (e.g. filling in seller
data).  Returns the success flag and the resulting active-trade list. -/
def TradeManager.TakeOrder (ownAccount : String) (o : Order)
    (units now : Int) (hasReplyOutcome : Except Unit (TradeState → TradeState))
    (trades : List TradeState) : Bool × List TradeState :=
  if ¬ CheckOrder o units then (false, trades)
  else if o.account.getD "" = ownAccount then (false, trades)
  else
    match hasReplyOutcome with
    | .error _ => (false, trades)
    | .ok f =>
        (true, trades ++ [f (initialTradeData o units now (o.account.getD ""))])

/-- The own-orders portion of the global `proto::State`: the own account,
the id counter and the `id → Order` map. -/
structure OwnOrdersState where
  account : String
  nextFreeId : Nat
  orders : Nat → Option Order

/-- `MyOrders::TryLock` (src/myorders.cpp:100-131): if the order exists and
is not locked, return a copy with `account` and `id` filled in and mark the
stored order locked; otherwise return nothing. -/
def MyOrders.TryLock (s : OwnOrdersState) (id : Nat) :
    Option (Order × OwnOrdersState) :=
  match s.orders id with
  | none => none
  | some o =>
      if o.locked.getD false then none
      else
        some ({o with account := some s.account, id := some id},
          {s with orders := fun j =>
            if j = id then some {o with locked := some true}
            else s.orders j})

/-- `MyOrders::Unlock` (src/myorders.cpp:133-146): clears the `locked` bit;
a missing or unlocked order is a fatal `CHECK`. -/
def MyOrders.Unlock (s : OwnOrdersState) (id : Nat) :
    CResult OwnOrdersState :=
  match s.orders id with
  | none => .crash
  | some o =>
      if o.locked.getD false then
        .ok {s with orders := fun j =>
          if j = id then some {o with locked := none} else s.orders j}
      else .crash

/-- `TradeManager::OrderTaken` (src/trades.cpp:998-1031): validates the
order and refuses self-takes; on success appends the fresh trade.  The
`CHECK_EQ (data.order ().account (), s.account ())` crash is modelled. -/
def TradeManager.OrderTaken (ownAccount : String) (o : Order)
    (units now : Int) (counterparty : String) (trades : List TradeState) :
    CResult (Bool × List TradeState) :=
  if ¬ CheckOrder o units then .ok (false, trades)
  else if o.account.getD "" ≠ ownAccount then .crash
  else if counterparty = ownAccount then .ok (false, trades)
  else .ok (true, trades ++ [initialTradeData o units now counterparty])

/-- The `taking_order` block of `TradeManager::ProcessMessage`
(src/trades.cpp:1039-1062): try-lock our order with the given id; if that
fails, abort.  Create the local trade via `OrderTaken`; if that fails,
unlock the order again and abort.  The returned flag tells whether
processing continues into the generic message handler. -/
def TradeManager.processTakingOrder (s : OwnOrdersState) (id : Nat)
    (units now : Int) (counterparty : String) (trades : List TradeState) :
    CResult (Bool × OwnOrdersState × List TradeState) :=
  match MyOrders.TryLock s id with
  | none => .ok (false, s, trades)
  | some (o, s1) =>
      match TradeManager.OrderTaken s.account o units now counterparty
          trades with
      | .crash => .crash
      | .ok (true, tr) => .ok (true, s1, tr)
      | .ok (false, tr) =>
          match MyOrders.Unlock s1 id with
          | .crash => .crash
          | .ok s2 => .ok (false, s2, tr)

/-- C6: (a) when the wallet RPC throws during `TakeOrder`'s initial
`HasReply` run, `TakeOrder` returns false and the active-trade list is
unchanged; (b) when the `taking_order` path has locked one of our orders
but the local trade cannot be created (`OrderTaken` fails: out-of-range
units or a self-take), the block aborts with the lock released again — the
stored order is back to its pre-lock value except that its `locked` bit is
cleared, every other order is untouched, and no trade was appended. -/
theorem TakeOrder_error_spec (ownAccount : String) (o : Order)
    (units now : Int) (trades : List TradeState)
    (s : OwnOrdersState) (id : Nat) (counterparty : String)
    (lockedOrder : Order) (s1 : OwnOrdersState)
    (htl : MyOrders.TryLock s id = some (lockedOrder, s1))
    (hfail : CheckOrder lockedOrder units = false
      ∨ counterparty = s.account) :
    (TradeManager.TakeOrder ownAccount o units now (.error ()) trades
        = (false, trades)) ∧
    (∃ s2, TradeManager.processTakingOrder s id units now counterparty trades
        = .ok (false, s2, trades) ∧
      (∀ j, j ≠ id → s2.orders j = s.orders j) ∧
      s2.orders id
        = Option.map (fun o0 => {o0 with locked := none}) (s.orders id)) := by
  constructor
  · unfold TradeManager.TakeOrder
    by_cases hco : CheckOrder o units
    · rw [if_neg (by simp [hco])]
      by_cases hself : o.account.getD "" = ownAccount
      · rw [if_pos hself]
      · rw [if_neg hself]
    · rw [if_pos (by simp [hco])]
  · rcases hso : s.orders id with _ | o0
    · rw [MyOrders.TryLock, hso] at htl
      exact Option.noConfusion htl
    · rw [MyOrders.TryLock, hso] at htl
      dsimp only at htl
      by_cases hlk : o0.locked.getD false
      · rw [if_pos hlk] at htl
        exact Option.noConfusion htl
      · rw [if_neg hlk] at htl
        have hpairEq := Option.some.inj htl
        have ho : lockedOrder
            = {o0 with account := some s.account, id := some id} :=
          (congrArg Prod.fst hpairEq).symm
        have hs1 : s1 = {s with orders := fun j =>
            (if j = id then some ({o0 with locked := some true})
             else s.orders j)} :=
          (congrArg Prod.snd hpairEq).symm
        have htl3 : MyOrders.TryLock s id = some (lockedOrder, s1) := by
          rw [MyOrders.TryLock, hso]
          dsimp only
          rw [if_neg hlk]
          exact htl
        have hot : TradeManager.OrderTaken s.account lockedOrder units now
            counterparty trades = .ok (false, trades) := by
          unfold TradeManager.OrderTaken
          rcases hfail with hco | hcp
          · rw [if_pos (by simp [hco])]
          · by_cases hco : CheckOrder lockedOrder units
            · rw [if_neg (by simp [hco]),
                if_neg (by rw [ho]; simp), if_pos hcp]
            · rw [if_pos (by simp [hco])]
        have hunl : MyOrders.Unlock s1 id
            = .ok {s1 with orders := fun j =>
                (if j = id
                 then some ({o0 with locked := none})
                 else s1.orders j)} := by
          unfold MyOrders.Unlock
          rw [hs1]
          dsimp only
          rw [if_pos rfl]
          rfl
        refine ⟨{s1 with orders := fun j =>
            (if j = id then some ({o0 with locked := none})
             else s1.orders j)}, ?_, ?_, ?_⟩
        · unfold TradeManager.processTakingOrder
          rw [htl3]
          dsimp only
          rw [hot]
          dsimp only
          rw [hunl]
        · intro j hj
          rw [hs1]
          dsimp only
          rw [if_neg hj, if_neg hj]
        · rw [hs1]
          dsimp only
          rw [if_pos rfl]
          rfl

/-- A concrete own-orders state: account `"me"`, one unlocked `ASK` order
stored under id 1. -/
def exampleOwnState : OwnOrdersState :=
  ⟨"me", 101, fun j =>
    (if j = 1
     then some ⟨none, none, some "gold", some .ask, some 5, none,
       some 10, none⟩
     else none)⟩

/-- `exampleOwnState` after `TryLock 1` marked the stored order locked. -/
def exampleLockedState : OwnOrdersState :=
  {exampleOwnState with orders := fun j =>
    (if j = 1
     then some ⟨none, none, some "gold", some .ask, some 5, none,
       some 10, some true⟩
     else exampleOwnState.orders j)}

/-- Witness for C6: a wallet exception during `TakeOrder` leaves the trade
list unchanged, and a self-take against the locked order 1 of
`exampleOwnState` releases the lock again without appending a trade. -/
theorem TakeOrder_error_spec_witness :
    (TradeManager.TakeOrder "me"
        ⟨some "maker", some 7, some "gold", some .bid, some 5, none,
          some 10, none⟩
        3 1000 (.error ()) [] = (false, [])) ∧
    (∃ s2, TradeManager.processTakingOrder exampleOwnState 1 3 1000 "me" []
        = .ok (false, s2, []) ∧
      (∀ j, j ≠ 1 → s2.orders j = exampleOwnState.orders j) ∧
      s2.orders 1 = Option.map (fun o0 => {o0 with locked := none})
        (exampleOwnState.orders 1)) :=
  TakeOrder_error_spec "me"
    ⟨some "maker", some 7, some "gold", some .bid, some 5, none,
      some 10, none⟩
    3 1000 [] exampleOwnState 1 "me"
    ⟨some "me", some 1, some "gold", some .ask, some 5, none, some 10, none⟩
    exampleLockedState rfl (Or.inr rfl)

/-! ### The composed orderbook views (orderbook.cpp) -/

/-- One order inside a composed orderbook view: `InternalGetByAsset` copies
the stored order and fills in `account` and `id` (asset and type are cleared
in the view, price presence is asserted when the book entry is stored). -/
structure BookOrder where
  account : String
  id : Nat
  priceSat : Int
  minUnits : Option Int
  maxUnits : Option Int
deriving DecidableEq, Repr

/-- The comparator `byPriceAsc` of `SortByPrices`
(src/orderbook.cpp:140-150): by price, then account, then id. -/
def byPriceAsc (a b : BookOrder) : Bool :=
  if a.priceSat ≠ b.priceSat then a.priceSat < b.priceSat
  else if a.account ≠ b.account then a.account < b.account
  else a.id < b.id

/-- The collection loop of `OrderBook::InternalGetByAsset`
(src/orderbook.cpp:163-186), restricted to the orders of one asset and one
side: iterate the account map (`std::map`, in account order) and each
account's order map (in id order), keep the matching orders, and fill in
account and id.  The book is the remote-orders map `account → (id →
Order)`. -/
def collectSide (book : List (String × List (Nat × Order)))
    (asset : String) (ty : OrderType) : List BookOrder :=
  (book.map (fun acc =>
    (acc.2.filterMap (fun io =>
      if io.2.asset = some asset ∧ io.2.type = some ty
      then some ⟨acc.1, io.1, io.2.priceSat.getD 0, io.2.minUnits,
        io.2.maxUnits⟩
      else none)))).flatten

/-- The ask-side sort of `SortByPrices` (src/orderbook.cpp:152-155):
`std::sort (asks.begin (), asks.end (), byPriceAsc)` produces a permutation
that is sorted so that `byPriceAsc` never holds backwards between
neighbours; modelled with insertion sort, which produces such a
permutation. -/
def OrderBook.sortAsks (l : List BookOrder) : List BookOrder :=
  List.insertionSort (fun a b => byPriceAsc b a = false) l

/-- The bid-side sort of `SortByPrices` (src/orderbook.cpp:156-157):
`std::sort (bids.rbegin (), bids.rend (), byPriceAsc)` sorts the reversed
vector ascending, i.e. the bids list itself descending with respect to
`byPriceAsc`. -/
def OrderBook.sortBids (l : List BookOrder) : List BookOrder :=
  List.insertionSort (fun a b => byPriceAsc a b = false) l

/-- The asks list for `asset` in the composed views (`GetForAsset` and
`GetByAsset` both build it this way). -/
def OrderBook.asksFor (book : List (String × List (Nat × Order)))
    (asset : String) : List BookOrder :=
  OrderBook.sortAsks (collectSide book asset .ask)

/-- The bids list for `asset` in the composed views. -/
def OrderBook.bidsFor (book : List (String × List (Nat × Order)))
    (asset : String) : List BookOrder :=
  OrderBook.sortBids (collectSide book asset .bid)

theorem byPriceAsc_iff (a b : BookOrder) :
    byPriceAsc a b = true ↔
      (a.priceSat < b.priceSat ∨ (a.priceSat = b.priceSat ∧
        (a.account < b.account ∨ (a.account = b.account ∧ a.id < b.id)))) := by
  unfold byPriceAsc
  by_cases h1 : a.priceSat = b.priceSat
  · rw [if_neg (by simp [h1])]
    by_cases h2 : a.account = b.account
    · rw [if_neg (by simp [h2])]
      simp [h1, h2]
    · rw [if_pos (by simp [h2])]
      constructor
      · intro h
        exact Or.inr ⟨h1, Or.inl (by simpa using h)⟩
      · rintro (h | ⟨-, h | ⟨he, -⟩⟩)
        · exact absurd h1 (ne_of_lt h)
        · simpa using h
        · exact absurd he h2
  · rw [if_pos (by simp [h1])]
    constructor
    · intro h
      exact Or.inl (by simpa using h)
    · rintro (h | ⟨he, -⟩)
      · simpa using h
      · exact absurd he h1

theorem byPriceAsc_false_iff (a b : BookOrder) :
    byPriceAsc b a = false ↔
      (a.priceSat < b.priceSat ∨ (a.priceSat = b.priceSat ∧
        (a.account < b.account ∨ (a.account = b.account ∧ a.id ≤ b.id)))) := by
  rw [← Bool.not_eq_true, byPriceAsc_iff]
  constructor
  · intro h
    rcases lt_trichotomy a.priceSat b.priceSat with hp | hp | hp
    · exact Or.inl hp
    · refine Or.inr ⟨hp, ?_⟩
      rcases lt_trichotomy a.account b.account with ha | ha | ha
      · exact Or.inl ha
      · refine Or.inr ⟨ha, ?_⟩
        by_contra hid
        exact h (Or.inr ⟨hp.symm, Or.inr ⟨ha.symm, by omega⟩⟩)
      · exact absurd (Or.inr ⟨hp.symm, Or.inl ha⟩) h
    · exact absurd (Or.inl hp) h
  · intro h hcon
    rcases h with hp | ⟨hp, hrest⟩
    · rcases hcon with hq | ⟨hq, -⟩
      · exact absurd hq (by omega)
      · exact absurd hq (by omega)
    · rcases hcon with hq | ⟨-, hcon2⟩
      · exact absurd hq (by omega)
      · rcases hrest with ha | ⟨ha, hid⟩
        · rcases hcon2 with hb | ⟨hb, -⟩
          · exact absurd hb (by
              intro hb2
              exact absurd (lt_trans ha hb2) (lt_irrefl _))
          · exact absurd hb (ne_of_gt ha)
        · rcases hcon2 with hb | ⟨-, hid2⟩
          · exact absurd hb (by rw [ha]; exact lt_irrefl _)
          · omega

theorem ascRel_total : ∀ a b : BookOrder,
    byPriceAsc b a = false ∨ byPriceAsc a b = false := by
  intro a b
  by_cases h : byPriceAsc b a = false
  · exact Or.inl h
  · rw [Bool.not_eq_false, byPriceAsc_iff] at h
    right
    rw [byPriceAsc_false_iff]
    rcases h with hp | ⟨hp, hrest⟩
    · exact Or.inl hp
    · refine Or.inr ⟨hp, ?_⟩
      rcases hrest with ha | ⟨ha, hid⟩
      · exact Or.inl ha
      · exact Or.inr ⟨ha, le_of_lt hid⟩

theorem ascRel_trans (a b c : BookOrder)
    (hab : byPriceAsc b a = false) (hbc : byPriceAsc c b = false) :
    byPriceAsc c a = false := by
  rw [byPriceAsc_false_iff] at hab hbc ⊢
  rcases hab with hp | ⟨hp, hr⟩ <;> rcases hbc with hq | ⟨hq, hs⟩
  · exact Or.inl (lt_trans hp hq)
  · exact Or.inl (by omega)
  · exact Or.inl (by omega)
  · refine Or.inr ⟨by omega, ?_⟩
    rcases hr with ha | ⟨ha, hid⟩ <;> rcases hs with hb | ⟨hb, hid2⟩
    · exact Or.inl (lt_trans ha hb)
    · exact Or.inl (by rw [← hb]; exact ha)
    · exact Or.inl (by rw [ha]; exact hb)
    · exact Or.inr ⟨by rw [ha, hb], by omega⟩

instance : IsTotal BookOrder (fun a b => byPriceAsc b a = false) :=
  ⟨ascRel_total⟩

instance : IsTrans BookOrder (fun a b => byPriceAsc b a = false) :=
  ⟨ascRel_trans⟩

instance : IsTotal BookOrder (fun a b => byPriceAsc a b = false) :=
  ⟨fun a b => (ascRel_total b a)⟩

instance : IsTrans BookOrder (fun a b => byPriceAsc a b = false) :=
  ⟨fun a b c hab hbc => ascRel_trans c b a hbc hab⟩

/-- C7 (amended): in every composed view, for every asset, the asks list is
sorted by price ascending with ties in ascending `(account, id)` order, and
the bids list is sorted by price descending with ties in **descending**
`(account, id)` order. -/
theorem OrderBook_sorted_spec (book : List (String × List (Nat × Order)))
    (asset : String) :
    (OrderBook.asksFor book asset).Pairwise (fun a b =>
      a.priceSat < b.priceSat ∨ (a.priceSat = b.priceSat ∧
        (a.account < b.account ∨ (a.account = b.account ∧ a.id ≤ b.id)))) ∧
    (OrderBook.bidsFor book asset).Pairwise (fun a b =>
      b.priceSat < a.priceSat ∨ (b.priceSat = a.priceSat ∧
        (b.account < a.account ∨ (b.account = a.account ∧ b.id ≤ a.id)))) := by
  constructor
  · have hs := List.sorted_insertionSort
      (fun a b : BookOrder => byPriceAsc b a = false)
      (collectSide book asset .ask)
    exact List.Pairwise.imp (fun h => (byPriceAsc_false_iff _ _).mp h) hs
  · have hs := List.sorted_insertionSort
      (fun a b : BookOrder => byPriceAsc a b = false)
      (collectSide book asset .bid)
    exact List.Pairwise.imp (fun h => (byPriceAsc_false_iff _ _).mp h) hs

/-- A remote book with two BID orders of the same price from accounts
`"a"` and `"b"`. -/
def exampleBook : List (String × List (Nat × Order)) :=
  [("a", [(1, ⟨none, none, some "gold", some .bid, some 10, none, none,
      none⟩)]),
   ("b", [(1, ⟨none, none, some "gold", some .bid, some 10, none, none,
      none⟩)])]

/-- Counterexample to C7 as stated: with two equal-price bids from accounts
`"a"` and `"b"`, the composed bids list is `[b, a]` — equal-price bids
appear in *descending* `(account, id)` order, so the claimed ascending
tie-break fails. -/
theorem OrderBook_claim_cex :
    OrderBook.bidsFor exampleBook "gold"
      = [⟨"b", 1, 10, none, none⟩, ⟨"a", 1, 10, none, none⟩] ∧
    ¬ ((OrderBook.bidsFor exampleBook "gold").Pairwise (fun a b =>
      b.priceSat < a.priceSat ∨ (a.priceSat = b.priceSat ∧
        (a.account < b.account ∨ (a.account = b.account ∧ a.id ≤ b.id))))) := by
  have hab : ("a" : String) < "b" := by
    rw [String.lt_iff_toList_lt]
    norm_num
    decide
  have hba : ¬ (("b" : String) < "a") := by
    rw [String.lt_iff_toList_lt]
    norm_num
    decide
  have hcol : collectSide exampleBook "gold" .bid
      = [⟨"a", 1, 10, none, none⟩, ⟨"b", 1, 10, none, none⟩] := rfl
  have hAB : byPriceAsc ⟨"a", 1, 10, none, none⟩ ⟨"b", 1, 10, none, none⟩
      = true := by
    unfold byPriceAsc
    rw [if_neg (by norm_num), if_pos (by decide)]
    exact decide_eq_true hab
  have hsort : OrderBook.bidsFor exampleBook "gold"
      = [⟨"b", 1, 10, none, none⟩, ⟨"a", 1, 10, none, none⟩] := by
    unfold OrderBook.bidsFor OrderBook.sortBids
    rw [hcol]
    simp only [List.insertionSort, List.orderedInsert]
    rw [if_neg (by rw [hAB]; simp)]
  refine ⟨hsort, ?_⟩
  rw [hsort]
  intro hpw
  have hrel := (List.pairwise_cons.mp hpw).1 _ (List.mem_singleton.mpr rfl)
  rcases hrel with h | ⟨-, h | ⟨h, -⟩⟩
  · exact absurd h (by norm_num)
  · exact hba h
  · exact absurd h (by decide)

/-! ### Adding own orders (myorders.cpp) -/

/-- The revalidation sweep of `MyOrders::RunRefresh`
(src/myorders.cpp:36-55): every stored order that fails the validator is
dropped.  (The subsequent broadcast of the non-locked orders does not
change the stored state.) -/
def MyOrders.RunRefresh (validate : String → Order → Bool)
    (s : OwnOrdersState) : OwnOrdersState :=
  {s with orders := fun j =>
    (match s.orders j with
     | some o => if validate s.account o then some o else none
     | none => none)}

/-- `MyOrders::Add` (src/myorders.cpp:57-86): validate the incoming order;
on success clear its `account` and `id`, store it under `next_free_id`,
increment the counter and run a refresh (which revalidates every stored
order, including the new one). -/
def MyOrders.Add (validate : String → Order → Bool) (s : OwnOrdersState)
    (o : Order) : Bool × OwnOrdersState :=
  if ¬ validate s.account o then (false, s)
  else
    (true, MyOrders.RunRefresh validate
      {s with
        nextFreeId := s.nextFreeId + 1
        orders := fun j =>
          (if j = s.nextFreeId
           then some ({o with account := none, id := none})
           else s.orders j)})

/-- C8 (amended): `MyOrders::Add` returns true iff the validator accepts the
order; on validation failure the state is completely unchanged; on success
`next_free_id` is incremented by exactly one (and never rewinds), and the
order is stored under the old `next_free_id` with the incoming `account` and
`id` cleared — but with the incoming `locked` flag **retained** — provided
the validator also accepts that cleared payload when the immediate refresh
revalidates it (identical for validators that ignore `account` and
`id`). -/
theorem MyOrders_Add_spec (validate : String → Order → Bool)
    (s : OwnOrdersState) (o : Order) :
    ((MyOrders.Add validate s o).1 = validate s.account o) ∧
    (validate s.account o = false → MyOrders.Add validate s o = (false, s)) ∧
    (validate s.account o = true →
      (MyOrders.Add validate s o).2.nextFreeId = s.nextFreeId + 1) ∧
    (validate s.account o = true →
      validate s.account ({o with account := none, id := none}) = true →
      (MyOrders.Add validate s o).2.orders s.nextFreeId
        = some ({o with account := none, id := none})) ∧
    (s.nextFreeId ≤ (MyOrders.Add validate s o).2.nextFreeId) := by
  by_cases hv : validate s.account o = true
  · have hev : MyOrders.Add validate s o
        = (true, MyOrders.RunRefresh validate
            {s with
              nextFreeId := s.nextFreeId + 1
              orders := fun j =>
                (if j = s.nextFreeId
                 then some ({o with account := none, id := none})
                 else s.orders j)}) := by
      unfold MyOrders.Add
      rw [if_neg (by simp [hv])]
    refine ⟨?_, ?_, ?_, ?_, ?_⟩
    · rw [hev, hv]
    · intro hc
      rw [hv] at hc
      exact Bool.noConfusion hc
    · intro _
      rw [hev]
      rfl
    · intro _ h2
      rw [hev]
      show (match (if s.nextFreeId = s.nextFreeId
          then some ({o with account := none, id := none})
          else s.orders s.nextFreeId) with
        | some o2 => if validate s.account o2 then some o2 else none
        | none => none)
        = some ({o with account := none, id := none})
      rw [if_pos rfl]
      dsimp only
      rw [if_pos h2]
    · rw [hev]
      exact Nat.le_succ _
  · have hv2 : validate s.account o = false := by
      rcases Bool.eq_false_or_eq_true (validate s.account o) with h | h
      · exact absurd h hv
      · exact h
    have hev : MyOrders.Add validate s o = (false, s) := by
      unfold MyOrders.Add
      rw [if_pos (by simp [hv2])]
    refine ⟨by rw [hev, hv2], fun _ => hev, ?_, ?_, ?_⟩
    · intro hc
      exact absurd hc hv
    · intro hc
      exact absurd hc hv
    · rw [hev]

/-- Witness for C8: with a validator accepting everything, adding an order
with `account` and `id` set stores it (cleared) under the current
`next_free_id` 101 and bumps the counter to 102. -/
theorem MyOrders_Add_spec_witness :
    ((MyOrders.Add (fun _ _ => true) ⟨"me", 101, fun _ => none⟩
        ⟨some "x", some 7, some "gold", some .bid, some 10, none, some 2,
          none⟩).2.nextFreeId = 102) ∧
    ((MyOrders.Add (fun _ _ => true) ⟨"me", 101, fun _ => none⟩
        ⟨some "x", some 7, some "gold", some .bid, some 10, none, some 2,
          none⟩).2.orders 101
      = some ⟨none, none, some "gold", some .bid, some 10, none, some 2,
          none⟩) :=
  ⟨(MyOrders_Add_spec (fun _ _ => true) ⟨"me", 101, fun _ => none⟩
      ⟨some "x", some 7, some "gold", some .bid, some 10, none, some 2,
        none⟩).2.2.1 rfl,
   (MyOrders_Add_spec (fun _ _ => true) ⟨"me", 101, fun _ => none⟩
      ⟨some "x", some 7, some "gold", some .bid, some 10, none, some 2,
        none⟩).2.2.2.1 rfl rfl⟩

/-- Counterexample to C8 as stated: `Add` clears only `account` and `id` of
the incoming order, not `locked`.  Adding an order with `locked = true`
(and an all-accepting validator) stores it still locked, not with the
`locked` flag cleared as the claim states. -/
theorem MyOrders_Add_claim_cex :
    ((MyOrders.Add (fun _ _ => true) ⟨"me", 101, fun _ => none⟩
        ⟨none, none, some "gold", some .bid, some 10, none, none,
          some true⟩).2.orders 101
      = some ⟨none, none, some "gold", some .bid, some 10, none, none,
          some true⟩) ∧
    ((MyOrders.Add (fun _ _ => true) ⟨"me", 101, fun _ => none⟩
        ⟨none, none, some "gold", some .bid, some 10, none, none,
          some true⟩).2.orders 101
      ≠ some ⟨none, none, some "gold", some .bid, some 10, none, none,
          none⟩) := by
  constructor
  · rfl
  · intro h
    have := Option.some.inj h
    have h2 := congrArg Order.locked this
    exact Option.noConfusion h2

end Democrit
